import Mathlib

/-!
# Verification of the pynogram / pyngrm nonogram solving core

Shallow embedding of the solver core: cell encoding, board validation,
the propagation driver (`propagation.py`), and the contradiction solver
(`contradiction_solver.py`), with theorems settling the specification
claims about them.
-/

namespace Pynogram

/-! ## Cell encoding

`pyngrm` (and the monochrome part of `pynogram`) represents a cell as one of
three atoms: UNKNOWN (a.k.a. UNSURE), BOX and SPACE.  Colored boards in
`pynogram` use an integer bitmask instead (`is_color_cell` distinguishes the
two).  We model the union of both as `PCell`; purely monochrome code uses
only the three atomic constructors. -/

inductive MCell where
  | unknown
  | box
  | space
deriving DecidableEq, Repr

/-- Modelled from the spec: `invert(assumption)` is "the other primary
color": BOX becomes SPACE and SPACE becomes BOX (`pyngrm.core.invert` is
not under src/). -/
def invert : MCell → MCell
  | .box => .space
  | .space => .box
  | .unknown => .unknown

/-- A cell as seen by `pynogram.core.propagation`: a monochrome atom or a
color bitmask.  Modelled from the spec: a color cell is "a non-empty set of
candidate colors, encoded as a bitmask" (`pynogram.core.common` is not
under src/). -/
inductive PCell where
  | unknown
  | box
  | space
  | color (bits : ℕ)
deriving DecidableEq, Repr

/-- `is_color_cell` from `pynogram.core.common` (not under src/), modelled
from the spec: exactly the bitmask-encoded cells are color cells. -/
def is_color_cell : PCell → Bool
  | .color _ => true
  | _ => false

/-- Bitmask value of a color cell (0 for the monochrome atoms, which never
reach the integer comparison in the source). -/
def colorVal : PCell → ℕ
  | .color b => b
  | _ => 0

/-- `_is_pixel_updated(old, new)` from `pynogram/core/propagation.py`
(lines 24-35).  Python `assert` failures are modelled as `Except.error`. -/
def isPixelUpdated (old new : PCell) : Except String Bool :=
  if old = new then .ok false
  else
    if is_color_cell old then
      -- old value contains more 1-s in the binary representation
      if colorVal old > colorVal new then .ok true
      else .error "AssertionError: old > new"
    else
      if old = .unknown then
        if new = .box ∨ new = .space then .ok true
        else .error "AssertionError: new in (BOX, SPACE)"
      else .error "AssertionError: old == UNKNOWN"

/-! ## Board validation (`pyngrm/board.py`)

Clues are lists of block lengths; a board holds the vertical clues
(columns) and the horizontal clues (rows).  `validate` runs at
construction time (`BaseBoard.__init__` calls it) and raises on bad
clues. -/

/-- `need_cells` computed by `BaseBoard.validate_headers` for one clue:
the blocks plus at least one space between every two blocks. -/
def needCells (row : List ℕ) : ℕ :=
  row.sum + (if row.isEmpty then 0 else row.length - 1)

/-- `BaseBoard.validate_headers(rows, max_size)` from `pyngrm/board.py`
(lines 107-122): raise as soon as some clue cannot fit in `max_size`. -/
def validate_headers (rows : List (List ℕ)) (maxSize : ℕ) : Except String Unit :=
  match rows with
  | [] => .ok ()
  | row :: rest =>
      if needCells row > maxSize then
        .error "ValueError: cannot allocate row"
      else validate_headers rest maxSize

/-- Total number of boxes described by a clue list. -/
def boxesIn (clues : List (List ℕ)) : ℕ :=
  (clues.map List.sum).sum

/-- `BaseBoard.validate` from `pyngrm/board.py` (lines 92-105): check the
column clues against the height, the row clues against the width, then
compare the box counts. -/
def validate (verticalClues horizontalClues : List (List ℕ)) :
    Except String Unit :=
  match validate_headers verticalClues horizontalClues.length with
  | .error e => .error e
  | .ok _ =>
      match validate_headers horizontalClues verticalClues.length with
      | .error e => .error e
      | .ok _ =>
          if boxesIn horizontalClues ≠ boxesIn verticalClues then
            .error "ValueError: number of boxes differs"
          else .ok ()

/-- A constructed `BaseBoard`: clues plus the cell grid, all UNSURE
initially. -/
structure BaseBoard where
  verticalClues : List (List ℕ)
  horizontalClues : List (List ℕ)
  cells : List (List MCell)
deriving DecidableEq, Repr

/-- `BaseBoard.__init__`: the board exists only when `validate` passes;
the grid starts with every cell UNSURE. -/
def mkBoard (columns rows : List (List ℕ)) : Except String BaseBoard :=
  match validate columns rows with
  | .error e => .error e
  | .ok _ =>
      .ok { verticalClues := columns
            horizontalClues := rows
            cells := rows.map fun _ => columns.map fun _ => MCell.unknown }

/-! ## `BaseBoard.solve_round` (`pyngrm/board.py` lines 163-172)

The method sequences two bulk passes and a hook.  We embed it generically
over the state transformers for the three steps, mirroring the source's
control flow exactly: both branches of the `if rows_first:` run
`solve_rows` before `solve_columns`. -/

def solve_round {σ : Type} (solveRows solveColumns roundCompleted : σ → σ)
    (rowsFirst : Bool) (b : σ) : σ :=
  if rowsFirst then
    roundCompleted (solveColumns (solveRows b))
  else
    roundCompleted (solveColumns (solveRows b))

/-! ## Cell grids

`board.cells` is a height × width matrix; `pyngrm`'s contradiction solver
indexes it as `cells[row][column]`. -/

/-- The 2-D cell grid of a monochrome board. -/
def Grid := List (List MCell)
deriving DecidableEq, Repr

/-- `board.cells[i][j]` (UNSURE when out of range, which the callers never
exercise). -/
def getCell (g : Grid) (i j : ℕ) : MCell :=
  ((g : List (List MCell)).getD i []).getD j .unknown

/-- `board.cells[i][j] = v`: functional update of one cell. -/
def setCell (g : Grid) (i j : ℕ) (v : MCell) : Grid :=
  (g : List (List MCell)).set i (((g : List (List MCell)).getD i []).set j v)

/-! ## `try_contradiction` (`pyngrm/core/solve/contradiction_solver.py` lines 20-63)

The trial propagation (`line_solver.solve` with `contradiction_mode=True`)
and the optional follow-up propagation are collaborators whose module is
not under src/, so the embedding takes them as parameters:
`trialSolve` returns the propagated grid or raises (`Except.error`), and
`propSolve` is the non-trial propagation restricted to the cell's row and
column.  The source snapshots `board.cells`, writes the assumption, runs
the trial, and in the `finally` block restores the snapshot; only a caught
`NonogramError` justifies writing `invert(assumption)` into the restored
grid (followed by `propSolve` when `propagate` is set). -/

def try_contradiction (trialSolve : Grid → Except Unit Grid)
    (propSolve : Grid → Grid) (g : Grid) (rowIndex columnIndex : ℕ)
    (assumption : MCell) (propagate : Bool) : Grid :=
  -- already solved
  if getCell g rowIndex columnIndex ≠ .unknown then g
  else
    match trialSolve (setCell g rowIndex columnIndex assumption) with
    | .ok _ => g
    | .error _ =>
        let restored := setCell g rowIndex columnIndex (invert assumption)
        if propagate then propSolve restored else restored

/-! ## `_contradictions_round` (`contradiction_solver.py` lines 66-114)

`board.row_solution_rate(line) == 1` holds exactly when the line has no
UNSURE cell (`row_solution_rate` lives in a board module not under src/;
modelled from the spec: "fraction of solved cells in that line").
The embedding logs every *batched* `line_solver.solve` call (the one at
the end of a row/column sweep) as `(is_column, index)`, so the theorems
can speak about when that call happens; `batchSolve` performs it. -/

def rowSolved (line : List MCell) : Bool :=
  line.all fun c => c ≠ .unknown

/-- One column of the grid (`board.cells.T[j]`). -/
def gridColumn (g : Grid) (j : ℕ) : List MCell :=
  (g : List (List MCell)).map fun row => row.getD j .unknown

/-- Grid height (`board.height`). -/
def gridHeight (g : Grid) : ℕ := (g : List (List MCell)).length

/-- Grid width (`board.width`). -/
def gridWidth (g : Grid) : ℕ :=
  ((g : List (List MCell)).headD []).length

def _contradictions_round (trialSolve : Grid → Except Unit Grid)
    (propSolve : Grid → Grid) (batchSolve : Grid → Bool × ℕ → Grid)
    (g : Grid) (assumption : MCell) (propagateOnCell byRows : Bool) :
    Grid × List (Bool × ℕ) :=
  if byRows then
    (List.range (gridHeight g)).foldl
      (fun acc solvedRow =>
        if rowSolved ((acc.1 : List (List MCell)).getD solvedRow []) then acc
        else
          let g1 := (List.range (gridWidth acc.1)).foldl
            (fun gcur solvedColumn =>
              try_contradiction trialSolve propSolve gcur
                solvedRow solvedColumn assumption propagateOnCell) acc.1
          if ¬propagateOnCell then
            -- solve with only one row as new info
            (batchSolve g1 (false, solvedRow), acc.2 ++ [(false, solvedRow)])
          else (g1, acc.2))
      (g, [])
  else
    (List.range (gridWidth g)).foldl
      (fun acc solvedColumn =>
        if rowSolved (gridColumn acc.1 solvedColumn) then acc
        else
          let g1 := (List.range (gridHeight acc.1)).foldl
            (fun gcur solvedRow =>
              try_contradiction trialSolve propSolve gcur
                solvedRow solvedColumn assumption propagateOnCell) acc.1
          if propagateOnCell then
            -- solve with only one column as new info
            (batchSolve g1 (true, solvedColumn), acc.2 ++ [(true, solvedColumn)])
          else (g1, acc.2))
      (g, [])

/-! ## Line solver, modelled from the spec

The concrete line solvers (`pynogram/core/line/*`) are not under src/.
Modelled from the spec (§4.1 completeness guarantee): `refined_cells[i]`
equals the union over all valid placements of the color assigned to
position *i*; `Inconsistency` when no placement is consistent. -/

/-- Candidate fillings of one monochrome cell (`true` = box). -/
def mcellCandidates : MCell → List Bool
  | .unknown => [true, false]
  | .box => [true]
  | .space => [false]

/-- All ways to choose one element from each list, in order. -/
def productLists {α : Type} : List (List α) → List (List α)
  | [] => [[]]
  | xs :: rest =>
      (productLists rest).flatMap fun tail => xs.map fun x => x :: tail

/-- The block structure (run lengths of `true`) of a boolean line. -/
def blocksOf : List Bool → List ℕ
  | [] => []
  | false :: rest => blocksOf rest
  | true :: rest =>
      match blocksOf rest with
      | [] => [1]
      | b :: bs => if rest.headD false then (b + 1) :: bs else 1 :: b :: bs

/-- All placements of `clue` consistent with the current cells. -/
def linePlacements (clue : List ℕ) (cells : List MCell) : List (List Bool) :=
  (productLists (cells.map mcellCandidates)).filter fun p => blocksOf p = clue

/-- Collapse the set of consistent placements to one refined cell per
position: all-box gives BOX, all-space gives SPACE, both give UNKNOWN. -/
def collapseAt (ps : List (List Bool)) (i : ℕ) : MCell :=
  let vals := ps.map fun p => p.getD i false
  if vals.all (· = true) then .box
  else if vals.all (· = false) then .space
  else .unknown

/-- Modelled from the spec: `solve_line(clue, cells)` as the union over
all valid placements (`pynogram.core.line.solve_line` is not under src/);
raises `Inconsistency` when no placement is consistent. -/
def solve_line (clue : List ℕ) (cells : List MCell) :
    Except Unit (List MCell) :=
  let ps := linePlacements clue cells
  if ps.isEmpty then .error ()
  else .ok ((List.range cells.length).map (collapseAt ps))

/-- The same solver with inconsistency collapsed to "no refinement":
the driver theorems that do not concern the error path use this total
wrapper. -/
def solveLineTotal (clue : List ℕ) (cells : List MCell) : List MCell :=
  match solve_line clue cells with
  | .ok refined => refined
  | .error _ => cells

/-! ## The propagation board (`pynogram` flavour)

`pynogram/core/board.py` is not under src/; the operations the driver
needs are modelled from the spec (§4.3): row/column slice snapshots,
monotone slice replacement, `is_solved_full` true iff every cell is
solved. -/

structure PBoard where
  rows_descriptions : List (List ℕ)
  columns_descriptions : List (List ℕ)
  cells : List (List MCell)
deriving DecidableEq, Repr

def PBoard.height (b : PBoard) : ℕ := b.rows_descriptions.length

def PBoard.width (b : PBoard) : ℕ := b.columns_descriptions.length

def PBoard.get_row (b : PBoard) (i : ℕ) : List MCell :=
  b.cells.getD i []

def PBoard.get_column (b : PBoard) (j : ℕ) : List MCell :=
  b.cells.map fun row => row.getD j .unknown

def PBoard.set_row (b : PBoard) (i : ℕ) (row : List MCell) : PBoard :=
  { b with cells := b.cells.set i row }

def PBoard.set_column (b : PBoard) (j : ℕ) (col : List MCell) : PBoard :=
  { b with cells :=
      ((b.cells.zip (List.range b.cells.length)).map
        fun rc => rc.1.set j (col.getD rc.2 .unknown)) }

/-- Modelled from the spec: `is_solved_full` is "true iff every cell is a
singleton" — for monochrome cells, not UNKNOWN. -/
def PBoard.is_solved_full (b : PBoard) : Bool :=
  b.cells.all fun row => row.all fun c => c ≠ .unknown

/-- Monochrome atoms embedded into the unified cell type (monochrome cells
are never color cells). -/
def toPCell : MCell → PCell
  | .unknown => .unknown
  | .box => .box
  | .space => .space

/-- The `enumerate(zip(row, updated))` loop of `solve_row`
(`propagation.py` lines 78-80): collect `(not is_column, i)` for every
pixel reported updated; `_is_pixel_updated` assertion failures
propagate. -/
def collect_jobs (isColumn : Bool) :
    ℕ → List MCell → List MCell → Except String (List (Bool × ℕ))
  | _, [], _ => .ok []
  | _, _ :: _, [] => .ok []
  | i, pre :: ps, post :: qs =>
      match isPixelUpdated (toPCell pre) (toPCell post) with
      | .error e => .error e
      | .ok updated =>
          match collect_jobs isColumn (i + 1) ps qs with
          | .error e => .error e
          | .ok rest =>
              if updated then .ok ((!isColumn, i) :: rest) else .ok rest

/-- `solve_row(board, index, is_column, method)` from
`pynogram/core/propagation.py` (lines 38-90), generic in the line solver
(the `method` dispatch lives outside src/).  Only when the refined line
differs from the current one are jobs produced and the slice written
back. -/
def solve_row (sl : List ℕ → List MCell → Except Unit (List MCell))
    (board : PBoard) (index : ℕ) (isColumn : Bool) :
    Except String (List (Bool × ℕ) × PBoard) :=
  let row_desc := if isColumn then board.columns_descriptions.getD index []
                  else board.rows_descriptions.getD index []
  let row := if isColumn then board.get_column index else board.get_row index
  match sl row_desc row with
  | .error _ => .error "NonogramError"
  | .ok updated =>
      if row = updated then .ok ([], board)
      else
        match collect_jobs isColumn 0 row updated with
        | .error e => .error e
        | .ok new_jobs =>
            .ok (new_jobs,
              if isColumn then board.set_column index updated
              else board.set_row index updated)

/-! ## The job queue

Jobs are `(is_column, index)` pairs; rows enter with tag
`False = 0`, columns with `True = 1` (`propagation.py` lines 157-163).
`PriorityDict` itself is not under src/; modelled from the spec: each job
is present at most once (assignment updates in place) and iteration pops
the numerically smallest priority first with the axis tag as the
low-order tiebreaker. -/

abbrev Job := Bool × ℕ

abbrev JobQueue := List (Job × ℤ)

/-- `line_jobs[job] = priority`: insert, or update in place. -/
def addJob (q : JobQueue) (job : Job) (p : ℤ) : JobQueue :=
  if q.any fun e => e.1 = job then
    q.map fun e => if e.1 = job then (job, p) else e
  else q ++ [(job, p)]

/-- The comparison key of a queued job: priority first, then the axis tag
(rows 0, columns 1), then the index. -/
def jobKey (e : Job × ℤ) : ℤ × ℕ × ℕ :=
  (e.2, (if e.1.1 then 1 else 0), e.1.2)

/-- Lexicographic order on job keys. -/
def keyLe (a b : ℤ × ℕ × ℕ) : Prop :=
  a.1 < b.1 ∨ (a.1 = b.1 ∧
    (a.2.1 < b.2.1 ∨ (a.2.1 = b.2.1 ∧ a.2.2 ≤ b.2.2)))

instance (a b : ℤ × ℕ × ℕ) : Decidable (keyLe a b) := by
  unfold keyLe; infer_instance

/-- Pop the queued job with the least key; modelled from the spec's
priority-dictionary semantics. -/
def popMin : JobQueue → Option ((Job × ℤ) × JobQueue)
  | [] => none
  | e :: rest =>
      match popMin rest with
      | none => some (e, [])
      | some (m, rest') =>
          if keyLe (jobKey e) (jobKey m) then some (e, rest)
          else some (m, e :: rest')

/-- One pop of the driver loop, as recorded for analysis: the popped job,
its priority, and the `(job, priority)` pairs handed to `_add_job`. -/
structure PopEvent where
  job : Job
  priority : ℤ
  added : List (Job × ℤ)
deriving DecidableEq, Repr

/-- The `for (is_column, index), priority in line_jobs.sorted_iter()` loop
of `_solve_with_method` (`propagation.py` lines 219-235), with explicit
fuel: pop the least job, solve it, enqueue each new job with priority
`priority - 1` (or `attempts_to_try` on blotted boards), and repeat. -/
def driverLoop (sl : List ℕ → List MCell → Except Unit (List MCell))
    (attempts : Job → ℤ) (hasBlots : Bool) :
    ℕ → JobQueue → PBoard → ℕ → ℕ → List PopEvent →
    Except String (ℕ × ℕ × PBoard × List PopEvent)
  | 0, q, b, cellsSolved, linesSolved, evs =>
      match popMin q with
      | none => .ok (cellsSolved, linesSolved, b, evs.reverse)
      | some _ => .error "out of fuel"
  | fuel + 1, q, b, cellsSolved, linesSolved, evs =>
      match popMin q with
      | none => .ok (cellsSolved, linesSolved, b, evs.reverse)
      | some ((job, priority), q') =>
          match solve_row sl b job.2 job.1 with
          | .error e => .error e
          | .ok (newJobs, b') =>
              let adds := newJobs.map fun j =>
                (j, if hasBlots then attempts j else priority - 1)
              let q'' := adds.foldl (fun acc jp => addJob acc jp.1 jp.2) q'
              driverLoop sl attempts hasBlots fuel q'' b'
                (cellsSolved + newJobs.length) (linesSolved + 1)
                ({ job := job, priority := priority, added := adds } :: evs)

/-- `_solve_with_method` from `pynogram/core/propagation.py`
(lines 137-248): the solved-board shortcut is attempted only when an
index list is omitted or longer than two entries; then the queue is
seeded (rows first, initial priority 0 or `attempts_to_try`) and the loop
runs.  Returns (cells solved, lines solved, board, pop log). -/
def _solve_with_method (sl : List ℕ → List MCell → Except Unit (List MCell))
    (attempts : Job → ℤ) (hasBlots : Bool) (fuel : ℕ) (board : PBoard)
    (rowIndexes columnIndexes : Option (List ℕ))
    (contradictionMode : Bool) :
    Except String (ℕ × ℕ × PBoard × List PopEvent) :=
  if (rowIndexes.isNone || columnIndexes.isNone ||
        decide ((rowIndexes.getD []).length > 2) ||
        decide ((columnIndexes.getD []).length > 2)) &&
      (!contradictionMode && board.is_solved_full) then
    -- do not shortcut in contradiction_mode
    .ok (0, 0, board, [])
  else
    let ri := rowIndexes.getD (List.range board.height)
    let ci := columnIndexes.getD (List.range board.width)
    let q0 : JobQueue := ri.foldl
      (fun acc i =>
        addJob acc (false, i) (if hasBlots then attempts (false, i) else 0))
      []
    let q1 : JobQueue := ci.foldl
      (fun acc j =>
        addJob acc (true, j) (if hasBlots then attempts (true, j) else 0))
      q0
    driverLoop sl attempts hasBlots fuel q1 board 0 0 []

/-! ## Colored line solver, modelled from the spec

`pynogram/core/line/efficient.py` is not under src/ (only its tests are).
Modelled from the spec: colors are integers with 0 = SPACE; a cell is a
set of candidate colors; a clue is a list of `(length, color)` blocks;
two consecutive blocks of the same color need a space between them while
different colors may touch; the solved cell at position *i* is the set of
colors some valid arrangement assigns there, and an empty arrangement set
is an `Inconsistency`. -/

/-- The `(length, color)` block decomposition of a concrete coloring:
maximal runs of equal nonzero colors. -/
def colorBlocksOf : List ℕ → List (ℕ × ℕ)
  | [] => []
  | 0 :: rest => colorBlocksOf rest
  | (c + 1) :: rest =>
      match colorBlocksOf rest with
      | [] => [(1, c + 1)]
      | (len, col) :: bs =>
          if rest.headD 0 = c + 1 then (len + 1, col) :: bs
          else (1, c + 1) :: (len, col) :: bs

/-- Modelled from the spec: `EfficientColorSolver.solve(desc, line)` as
the per-position union over all valid arrangements. -/
def solve_color_line (desc : List (ℕ × ℕ)) (cells : List (List ℕ)) :
    Except Unit (List (List ℕ)) :=
  let ps := (productLists cells).filter fun p => colorBlocksOf p = desc
  if ps.isEmpty then .error ()
  else .ok ((List.range cells.length).map fun i =>
    (ps.map fun p => p.getD i 0).dedup)

/-! ## Helpers and concrete fixtures used by the theorems -/

/-- Whether an `Except` computation succeeded. -/
def exceptOk {ε α : Type} : Except ε α → Bool
  | .ok _ => true
  | .error _ => false

/-- A fully solved 1×1 board (row clue `[1]`, column clue `[1]`, the one
cell a BOX). -/
def pb1 : PBoard :=
  { rows_descriptions := [[1]]
    columns_descriptions := [[1]]
    cells := [[MCell.box]] }

/-- A fresh 1×2 board (row clue `[2]`, column clues `[1]`, `[1]`): the
first line solve fills both cells. -/
def pb2 : PBoard :=
  { rows_descriptions := [[2]]
    columns_descriptions := [[1], [1]]
    cells := [[MCell.unknown, MCell.unknown]] }

/-! ## Theorems settling the claims -/

/-- C6: `_is_pixel_updated(old, new)` returns `False` exactly when
`old == new`; when they differ, for monochrome (non-color) cells it
returns `True` only if `old` is UNKNOWN and `new` is BOX or SPACE, and
its assertions fail on any other transition; for color cells the
assertion `old > new` must hold (otherwise it fails). -/
theorem isPixelUpdated_characterized (old new : PCell) :
    ((isPixelUpdated old new = Except.ok false) ↔ old = new)
    ∧ (is_color_cell old = false → old ≠ new →
        ((isPixelUpdated old new = Except.ok true) ↔
          (old = PCell.unknown ∧ (new = PCell.box ∨ new = PCell.space)))
        ∧ (¬(old = PCell.unknown ∧ (new = PCell.box ∨ new = PCell.space)) →
            exceptOk (isPixelUpdated old new) = false))
    ∧ (is_color_cell old = true → old ≠ new →
        ((isPixelUpdated old new = Except.ok true) ↔
          colorVal old > colorVal new)
        ∧ (¬(colorVal old > colorVal new) →
            exceptOk (isPixelUpdated old new) = false)) := by
  unfold isPixelUpdated exceptOk
  split_ifs <;> simp_all

/-- Witness for C6: a concrete UNKNOWN → BOX transition. -/
theorem isPixelUpdated_characterized_witness :
    ((isPixelUpdated PCell.unknown PCell.box = Except.ok false) ↔
      PCell.unknown = PCell.box)
    ∧ (is_color_cell PCell.unknown = false → PCell.unknown ≠ PCell.box →
        ((isPixelUpdated PCell.unknown PCell.box = Except.ok true) ↔
          (PCell.unknown = PCell.unknown ∧
            (PCell.box = PCell.box ∨ PCell.box = PCell.space)))
        ∧ (¬(PCell.unknown = PCell.unknown ∧
              (PCell.box = PCell.box ∨ PCell.box = PCell.space)) →
            exceptOk (isPixelUpdated PCell.unknown PCell.box) = false))
    ∧ (is_color_cell PCell.unknown = true → PCell.unknown ≠ PCell.box →
        ((isPixelUpdated PCell.unknown PCell.box = Except.ok true) ↔
          colorVal PCell.unknown > colorVal PCell.box)
        ∧ (¬(colorVal PCell.unknown > colorVal PCell.box) →
            exceptOk (isPixelUpdated PCell.unknown PCell.box) = false)) :=
  isPixelUpdated_characterized PCell.unknown PCell.box

/-- Helper: a passing `validate_headers` bounds every clue. -/
theorem validate_headers_ok {rows : List (List ℕ)} {maxSize : ℕ}
    (h : exceptOk (validate_headers rows maxSize) = true) :
    ∀ r ∈ rows, needCells r ≤ maxSize := by
  induction rows with
  | nil => intro r hr; cases hr
  | cons row rest ih =>
      intro r hr
      unfold validate_headers at h
      by_cases hrow : needCells row > maxSize
      · rw [if_pos hrow] at h
        simp [exceptOk] at h
      · rw [if_neg hrow] at h
        rcases List.mem_cons.mp hr with rfl | hmem
        · omega
        · exact ih h r hmem

/-- C7: board construction fails whenever the total number of boxes in the
row clues differs from that in the column clues; no board is produced. -/
theorem mkBoard_clue_mismatch (columns rows : List (List ℕ))
    (h : boxesIn rows ≠ boxesIn columns) :
    exceptOk (mkBoard columns rows) = false := by
  unfold mkBoard validate
  cases hv : validate_headers columns rows.length with
  | error e => simp [exceptOk]
  | ok _ =>
      cases hh : validate_headers rows columns.length with
      | error e => simp [exceptOk]
      | ok _ => simp [exceptOk, if_pos h]

/-- Witness for C7: the spec's unsatisfiable scenario (rows `[[3]]`,
columns `[[1],[1]]`). -/
theorem mkBoard_clue_mismatch_witness :
    boxesIn [[3]] ≠ boxesIn [[1], [1]]
    ∧ exceptOk (mkBoard [[1], [1]] [[3]]) = false :=
  ⟨by decide, mkBoard_clue_mismatch [[1], [1]] [[3]] (by decide)⟩

/-- C8: board construction fails whenever some clue is infeasible by
length: the blocks plus the mandatory gaps of a row clue must fit in the
width, those of a column clue in the height. -/
theorem mkBoard_infeasible_clue (columns rows : List (List ℕ))
    (h : (∃ r ∈ rows, needCells r > columns.length)
        ∨ (∃ c ∈ columns, needCells c > rows.length)) :
    exceptOk (mkBoard columns rows) = false := by
  cases hres : mkBoard columns rows with
  | error e => simp [exceptOk]
  | ok b =>
      exfalso
      unfold mkBoard at hres
      cases hv : validate columns rows with
      | error e => rw [hv] at hres; cases hres
      | ok _ =>
          unfold validate at hv
          cases hvh : validate_headers columns rows.length with
          | error e => rw [hvh] at hv; cases hv
          | ok _ =>
              cases hhh : validate_headers rows columns.length with
              | error e => rw [hvh, hhh] at hv; cases hv
              | ok _ =>
                  rcases h with ⟨r, hr, hbig⟩ | ⟨c, hc, hbig⟩
                  · have := @validate_headers_ok rows columns.length
                      (by rw [hhh]; rfl) r hr
                    omega
                  · have := @validate_headers_ok columns rows.length
                      (by rw [hvh]; rfl) c hc
                    omega

/-- Witness for C8: a row clue `[2]` cannot fit in a 1-cell-wide board. -/
theorem mkBoard_infeasible_clue_witness :
    ((∃ r ∈ [[2]], needCells r > [[1]].length)
        ∨ (∃ c ∈ [[1]], needCells c > ([[2]] : List (List ℕ)).length))
    ∧ exceptOk (mkBoard [[1]] [[2]]) = false :=
  ⟨by decide, mkBoard_infeasible_clue [[1]] [[2]] (by decide)⟩

/-- C3 (code bug): `solve_round(rows_first=False)` still performs the
rows pass before the columns pass — evaluated on an event-recording
state, the `rows_first=False` call produces the rows-then-columns trace,
not the reversed one the claim requires; the completion hook does fire
last. -/
theorem solve_round_ignores_rows_first :
    solve_round (fun l => l ++ ["rows"]) (fun l => l ++ ["columns"])
        (fun l => l ++ ["round completed"]) false ([] : List String)
      = ["rows", "columns", "round completed"]
    ∧ solve_round (fun l => l ++ ["rows"]) (fun l => l ++ ["columns"])
        (fun l => l ++ ["round completed"]) true ([] : List String)
      = ["rows", "columns", "round completed"] :=
  ⟨rfl, rfl⟩

/-- C1: `try_contradiction` leaves the board byte-identical to the
snapshot when the trial propagation succeeds (for either propagation
option), and on `NonogramError` restores the snapshot and sets the probed
cell alone to the inverted assumption (then runs the optional follow-up
propagation on exactly that grid). -/
theorem try_contradiction_restores (trialSolve : Grid → Except Unit Grid)
    (propSolve : Grid → Grid) (g : Grid) (i j : ℕ) (a : MCell) (p : Bool)
    (hunknown : getCell g i j = MCell.unknown) :
    (exceptOk (trialSolve (setCell g i j a)) = true →
        try_contradiction trialSolve propSolve g i j a p = g)
    ∧ (exceptOk (trialSolve (setCell g i j a)) = false →
        try_contradiction trialSolve propSolve g i j a false
          = setCell g i j (invert a))
    ∧ (exceptOk (trialSolve (setCell g i j a)) = false →
        try_contradiction trialSolve propSolve g i j a true
          = propSolve (setCell g i j (invert a))) := by
  have hcond : ¬(getCell g i j ≠ MCell.unknown) := by simp [hunknown]
  unfold try_contradiction
  cases htr : trialSolve (setCell g i j a) with
  | ok g' =>
      refine ⟨fun _ => ?_, fun hc => ?_, fun hc => ?_⟩
      · simp [if_neg hcond]
      · simp [exceptOk] at hc
      · simp [exceptOk] at hc
  | error e =>
      refine ⟨fun hc => ?_, fun _ => ?_, fun _ => ?_⟩
      · simp [exceptOk] at hc
      · simp [if_neg hcond]
      · simp [if_neg hcond]

/-- Witness for C1: probing the single UNKNOWN cell of a 1×1 grid with an
always-refuting trial solver. -/
theorem try_contradiction_restores_witness :
    (exceptOk ((fun _ => (Except.error () : Except Unit Grid))
        (setCell [[MCell.unknown]] 0 0 MCell.box)) = true →
        try_contradiction (fun _ => Except.error ()) id
          [[MCell.unknown]] 0 0 MCell.box true = [[MCell.unknown]])
    ∧ (exceptOk ((fun _ => (Except.error () : Except Unit Grid))
        (setCell [[MCell.unknown]] 0 0 MCell.box)) = false →
        try_contradiction (fun _ => Except.error ()) id
          [[MCell.unknown]] 0 0 MCell.box false
          = setCell [[MCell.unknown]] 0 0 (invert MCell.box))
    ∧ (exceptOk ((fun _ => (Except.error () : Except Unit Grid))
        (setCell [[MCell.unknown]] 0 0 MCell.box)) = false →
        try_contradiction (fun _ => Except.error ()) id
          [[MCell.unknown]] 0 0 MCell.box true
          = id (setCell [[MCell.unknown]] 0 0 (invert MCell.box))) :=
  try_contradiction_restores (fun _ => Except.error ()) id
    [[MCell.unknown]] 0 0 MCell.box true rfl

/-- C10: when the line solver returns the line unchanged, `solve_row`
returns the empty job list and the board untouched (no `set_row` /
`set_column` call is reached). -/
theorem solve_row_no_change
    (sl : List ℕ → List MCell → Except Unit (List MCell))
    (board : PBoard) (index : ℕ) (isColumn : Bool)
    (h : sl (if isColumn then board.columns_descriptions.getD index []
             else board.rows_descriptions.getD index [])
          (if isColumn then board.get_column index else board.get_row index)
        = Except.ok
            (if isColumn then board.get_column index
             else board.get_row index)) :
    solve_row sl board index isColumn = Except.ok ([], board) := by
  unfold solve_row
  dsimp only
  rw [h]
  simp

/-- Witness for C10: the already-solved single row of the 1×1 board under
the modelled line solver. -/
theorem solve_row_no_change_witness :
    solve_line (if false then pb1.columns_descriptions.getD 0 []
                else pb1.rows_descriptions.getD 0 [])
        (if false then pb1.get_column 0 else pb1.get_row 0)
      = Except.ok (if false then pb1.get_column 0 else pb1.get_row 0)
    ∧ solve_row solve_line pb1 0 false = Except.ok ([], pb1) :=
  ⟨rfl, solve_row_no_change solve_line pb1 0 false rfl⟩

/-- C4 (code bug): in the by-rows traversal the batched one-line
propagation runs exactly when `propagate_on_cell` is false (third and
fourth conjuncts), but in the by-columns traversal the guard is flipped:
the batched per-column propagation is skipped when `propagate_on_cell` is
false and run when it is true (first and second conjuncts), evaluated on
a 1×1 unsolved grid with a batch-call log. -/
theorem contradictions_round_batch_guard_flipped :
    (_contradictions_round (fun g => Except.ok g) id (fun g _ => g)
        [[MCell.unknown]] MCell.box false false).2 = []
    ∧ (_contradictions_round (fun g => Except.ok g) id (fun g _ => g)
        [[MCell.unknown]] MCell.box true false).2 = [(true, 0)]
    ∧ (_contradictions_round (fun g => Except.ok g) id (fun g _ => g)
        [[MCell.unknown]] MCell.box false true).2 = [(false, 0)]
    ∧ (_contradictions_round (fun g => Except.ok g) id (fun g _ => g)
        [[MCell.unknown]] MCell.box true true).2 = [] := by
  refine ⟨rfl, rfl, rfl, rfl⟩

/-- C5 counterexample: on the fully solved 1×1 board, a call passing
explicit one-element row and column index lists (and
`contradiction_mode=False`) does not return immediately: both seeded jobs
are popped and solved (the `2` in the result counts popped lines), even
though 0 cells change.  The claimed "returns immediately ... without
popping or solving any line jobs" fails for such calls. -/
theorem solve_with_method_no_shortcut_on_small_index_lists :
    PBoard.is_solved_full pb1 = true
    ∧ _solve_with_method solve_line (fun _ => 0) false 10 pb1
        (some [0]) (some [0]) false
      = Except.ok (0, 2, pb1,
          [{ job := (false, 0), priority := 0, added := [] },
           { job := (true, 0), priority := 0, added := [] }]) :=
  ⟨rfl, rfl⟩

/-- C5 as amended: the immediate-return shortcut on a fully solved board
with `contradiction_mode` false applies when an index list is omitted or
has more than two entries; then nothing is popped and 0 cells are
solved. -/
theorem solve_with_method_shortcut
    (sl : List ℕ → List MCell → Except Unit (List MCell))
    (attempts : Job → ℤ) (hasBlots : Bool) (fuel : ℕ) (board : PBoard)
    (ri ci : Option (List ℕ))
    (hidx : ri.isNone = true ∨ ci.isNone = true
        ∨ (ri.getD []).length > 2 ∨ (ci.getD []).length > 2)
    (hsolved : board.is_solved_full = true) :
    _solve_with_method sl attempts hasBlots fuel board ri ci false
      = Except.ok (0, 0, board, []) := by
  unfold _solve_with_method
  have hcond : ((ri.isNone || ci.isNone ||
      decide ((ri.getD []).length > 2) ||
      decide ((ci.getD []).length > 2)) &&
      (!false && PBoard.is_solved_full board)) = true := by
    rcases hidx with h | h | h | h <;> simp [h, hsolved]
  rw [if_pos hcond]

/-- Witness for the amended C5: omitted row indexes on the solved 1×1
board. -/
theorem solve_with_method_shortcut_witness :
    ((none : Option (List ℕ)).isNone = true
        ∨ (some ([] : List ℕ)).isNone = true
        ∨ (((none : Option (List ℕ)).getD []).length > 2)
        ∨ (((some ([] : List ℕ)).getD []).length > 2))
    ∧ PBoard.is_solved_full pb1 = true
    ∧ _solve_with_method solve_line (fun _ => 0) false 0 pb1
        none (some []) false
      = Except.ok (0, 0, pb1, []) :=
  ⟨Or.inl rfl, rfl,
    solve_with_method_shortcut solve_line (fun _ => 0) false 0 pb1
      none (some []) (Or.inl rfl) rfl⟩

/-- Helper: membership in the choice product is positionwise
membership. -/
theorem mem_productLists {α : Type} (ls : List (List α)) (p : List α) :
    p ∈ productLists ls ↔ List.Forall₂ (fun x xs => x ∈ xs) p ls := by
  induction ls generalizing p with
  | nil =>
      simp [productLists, List.forall₂_nil_right_iff]
  | cons xs rest ih =>
      simp only [productLists, List.mem_flatMap, List.mem_map]
      constructor
      · rintro ⟨tail, htail, x, hx, rfl⟩
        exact List.Forall₂.cons hx ((ih tail).mp htail)
      · intro h
        cases h with
        | cons hx htail => exact ⟨_, (ih _).mpr htail, _, hx, rfl⟩

/-- Helper: a coloring has the empty block decomposition iff it is
entirely blank. -/
theorem colorBlocksOf_eq_nil (p : List ℕ) :
    colorBlocksOf p = [] ↔ ∀ x ∈ p, x = 0 := by
  induction p with
  | nil => simp [colorBlocksOf]
  | cons x rest ih =>
      cases x with
      | zero => simp [colorBlocksOf, ih]
      | succ c =>
          constructor
          · intro h
            exfalso
            cases hr : colorBlocksOf rest with
            | nil => simp [colorBlocksOf, hr] at h
            | cons b bs =>
                obtain ⟨len, col⟩ := b
                simp only [colorBlocksOf, hr] at h
                split at h <;> simp at h
          · intro h
            have := h (c + 1) (List.mem_cons_self _ _)
            omega

/-- Helper: a blank placement consistent with the cells shows that every
cell admits SPACE. -/
theorem blank_placement_space_mem :
    ∀ {p : List ℕ} {cells : List (List ℕ)},
    List.Forall₂ (fun x xs => x ∈ xs) p cells →
    (∀ x ∈ p, x = 0) → ∀ c ∈ cells, 0 ∈ c := by
  intro p cells h
  induction h with
  | nil => intro _ c hc; cases hc
  | @cons a b l u hx _ ih =>
      intro hz c hc
      rcases List.mem_cons.mp hc with rfl | hmem
      · have ha : a = 0 := hz a (List.mem_cons_self _ _)
        rw [ha] at hx
        exact hx
      · exact ih (fun x hxm => hz x (List.mem_cons_of_mem _ hxm)) c hmem

/-- Helper: the all-SPACE choice is consistent whenever every cell admits
SPACE. -/
theorem replicate_zero_forall₂ :
    ∀ (cells : List (List ℕ)), (∀ c ∈ cells, 0 ∈ c) →
    List.Forall₂ (fun x xs => x ∈ xs)
      (List.replicate cells.length 0) cells := by
  intro cells
  induction cells with
  | nil => intro _; simp
  | cons c rest ih =>
      intro h
      simp only [List.length_cons, List.replicate_succ]
      exact List.Forall₂.cons (h c (List.mem_cons_self _ _))
        (ih fun x hx => h x (List.mem_cons_of_mem _ hx))

/-- Helper: indexing a blank placement always yields SPACE. -/
theorem getD_zero_of_all_zero :
    ∀ (p : List ℕ), (∀ x ∈ p, x = 0) → ∀ i, p.getD i 0 = 0 := by
  intro p
  induction p with
  | nil => intro _ i; simp [List.getD]
  | cons x rest ih =>
      intro hz i
      cases i with
      | zero => simpa using hz x (List.mem_cons_self _ _)
      | succ n =>
          simp only [List.getD_cons_succ]
          exact ih (fun y hy => hz y (List.mem_cons_of_mem _ hy)) n

/-- C9: with the empty clue, the colored line solver forces every cell to
the singleton SPACE; if some cell excludes SPACE it raises
`Inconsistency` instead. -/
theorem solve_color_line_empty_clue (cells : List (List ℕ)) :
    ((∀ c ∈ cells, 0 ∈ c) →
        solve_color_line [] cells = Except.ok (cells.map fun _ => [0]))
    ∧ ((∃ c ∈ cells, 0 ∉ c) →
        solve_color_line [] cells = Except.error ()) := by
  constructor
  · intro hall
    unfold solve_color_line
    have hmem : List.replicate cells.length 0 ∈
        (productLists cells).filter fun p => colorBlocksOf p = [] := by
      rw [List.mem_filter]
      refine ⟨(mem_productLists cells _).mpr (replicate_zero_forall₂ cells hall), ?_⟩
      simp only [decide_eq_true_eq]
      exact (colorBlocksOf_eq_nil _).mpr
        fun x hx => List.eq_of_mem_replicate hx
    have hne : ((productLists cells).filter
        fun p => colorBlocksOf p = []).isEmpty = false := by
      rw [List.isEmpty_eq_false]
      exact List.ne_nil_of_mem hmem
    rw [if_neg (by simp [hne])]
    congr 1
    have hzero : ∀ q ∈ (productLists cells).filter
        (fun p => colorBlocksOf p = []), ∀ x ∈ q, x = 0 := by
      intro q hq
      rw [List.mem_filter] at hq
      exact (colorBlocksOf_eq_nil q).mp (by simpa using hq.2)
    have hcol : ∀ i, (((productLists cells).filter
        (fun p => colorBlocksOf p = [])).map fun p => p.getD i 0).dedup
          = [0] := by
      intro i
      have hrep : (((productLists cells).filter
          (fun p => colorBlocksOf p = [])).map fun p => p.getD i 0)
            = List.replicate (((productLists cells).filter
                (fun p => colorBlocksOf p = [])).map
                  fun p => p.getD i 0).length 0 := by
        rw [List.eq_replicate_length]
        intro b hb
        rw [List.mem_map] at hb
        obtain ⟨q, hq, rfl⟩ := hb
        exact getD_zero_of_all_zero q (hzero q hq) i
      rw [hrep, List.replicate_dedup]
      simp only [List.length_map]
      intro hlen
      rw [List.length_eq_zero] at hlen
      exact List.ne_nil_of_mem hmem hlen
    calc (List.range cells.length).map (fun i =>
            (((productLists cells).filter
              (fun p => colorBlocksOf p = [])).map
                fun p => p.getD i 0).dedup)
        = (List.range cells.length).map fun _ => [0] := by
          apply List.map_congr_left
          intro i _
          exact hcol i
      _ = cells.map fun _ => [0] := by
          rw [List.map_const', List.map_const', List.length_range]
  · intro hex
    unfold solve_color_line
    have hempty : ((productLists cells).filter
        fun p => colorBlocksOf p = []) = [] := by
      rw [List.filter_eq_nil_iff]
      intro q hq hblank
      obtain ⟨c, hc, hnot⟩ := hex
      have hz : ∀ x ∈ q, x = 0 :=
        (colorBlocksOf_eq_nil q).mp (by simpa using hblank)
      exact hnot (blank_placement_space_mem
        ((mem_productLists cells q).mp hq) hz c hc)
    rw [if_pos (by simp [hempty])]

/-- Witness for C9: the spec's 3-cell wildcard line with colors
`{R=1, B=2, SPACE=0}` collapses to all-SPACE. -/
theorem solve_color_line_empty_clue_witness :
    (∀ c ∈ [[1, 2, 0], [1, 2, 0], [1, 2, 0]], (0 : ℕ) ∈ c)
    ∧ solve_color_line [] [[1, 2, 0], [1, 2, 0], [1, 2, 0]]
        = Except.ok [[0], [0], [0]] :=
  ⟨by decide,
    (solve_color_line_empty_clue [[1, 2, 0], [1, 2, 0], [1, 2, 0]]).1
      (by decide)⟩

/-- Helper: `keyLe` is reflexive. -/
theorem keyLe_refl (a : ℤ × ℕ × ℕ) : keyLe a a := by
  obtain ⟨a1, a2, a3⟩ := a
  unfold keyLe
  omega

/-- Helper: `keyLe` is transitive. -/
theorem keyLe_trans {a b c : ℤ × ℕ × ℕ}
    (hab : keyLe a b) (hbc : keyLe b c) : keyLe a c := by
  obtain ⟨a1, a2, a3⟩ := a
  obtain ⟨b1, b2, b3⟩ := b
  obtain ⟨c1, c2, c3⟩ := c
  unfold keyLe at hab hbc ⊢
  omega

/-- Helper: `keyLe` is total. -/
theorem keyLe_total (a b : ℤ × ℕ × ℕ) : keyLe a b ∨ keyLe b a := by
  obtain ⟨a1, a2, a3⟩ := a
  obtain ⟨b1, b2, b3⟩ := b
  unfold keyLe
  omega

/-- Helper: `popMin` yields nothing only on the empty queue. -/
theorem popMin_eq_none : ∀ (q : JobQueue), popMin q = none → q = [] := by
  intro q h
  cases q with
  | nil => rfl
  | cons a rest =>
      exfalso
      unfold popMin at h
      cases hr : popMin rest with
      | none => rw [hr] at h; cases h
      | some p =>
          rw [hr] at h
          obtain ⟨m, r'⟩ := p
          dsimp only at h
          by_cases hle : keyLe (jobKey a) (jobKey m)
          · rw [if_pos hle] at h; cases h
          · rw [if_neg hle] at h; cases h

/-- Helper: the popped entry has the least key in the queue. -/
theorem popMin_min : ∀ (q : JobQueue) (m : Job × ℤ) (r : JobQueue),
    popMin q = some (m, r) → ∀ e ∈ q, keyLe (jobKey m) (jobKey e) := by
  intro q
  induction q with
  | nil => intro m r h; cases h
  | cons a rest ih =>
      intro m r h e he
      unfold popMin at h
      cases hr : popMin rest with
      | none =>
          rw [hr] at h
          dsimp only at h
          simp only [Option.some.injEq, Prod.mk.injEq] at h
          obtain ⟨h1, h2⟩ := h
          subst h1
          rcases List.mem_cons.mp he with rfl | hmem
          · exact keyLe_refl _
          · rw [popMin_eq_none rest hr] at hmem
            cases hmem
      | some p =>
          obtain ⟨mm, rest'⟩ := p
          rw [hr] at h
          dsimp only at h
          by_cases hle : keyLe (jobKey a) (jobKey mm)
          · rw [if_pos hle] at h
            simp only [Option.some.injEq, Prod.mk.injEq] at h
            obtain ⟨h1, h2⟩ := h
            subst h1
            rcases List.mem_cons.mp he with rfl | hmem
            · exact keyLe_refl _
            · exact keyLe_trans hle (ih mm rest' hr e hmem)
          · rw [if_neg hle] at h
            simp only [Option.some.injEq, Prod.mk.injEq] at h
            obtain ⟨h1, h2⟩ := h
            subst h1
            rcases List.mem_cons.mp he with rfl | hmem
            · rcases keyLe_total (jobKey e) (jobKey mm) with hc | hc
              · exact absurd hc hle
              · exact hc
            · exact ih mm rest' hr e hmem

/-- Helper: every job emitted by the pixel-scanning loop targets the
perpendicular axis. -/
theorem collect_jobs_axis :
    ∀ (ic : Bool) (i : ℕ) (pre post : List MCell) (js : List (Bool × ℕ)),
    collect_jobs ic i pre post = Except.ok js → ∀ j ∈ js, j.1 = !ic := by
  intro ic i pre
  induction pre generalizing i with
  | nil =>
      intro post js h j hj
      unfold collect_jobs at h
      cases h
      cases hj
  | cons p ps ih =>
      intro post js h j hj
      cases post with
      | nil =>
          unfold collect_jobs at h
          cases h
          cases hj
      | cons q qs =>
          unfold collect_jobs at h
          cases hu : isPixelUpdated (toPCell p) (toPCell q) with
          | error e => rw [hu] at h; cases h
          | ok u =>
              rw [hu] at h
              cases hrest : collect_jobs ic (i + 1) ps qs with
              | error e =>
                  rw [hrest] at h
                  cases h
              | ok rest =>
                  rw [hrest] at h
                  dsimp only at h
                  cases u with
                  | true =>
                      simp only [if_true, Except.ok.injEq] at h
                      subst h
                      rcases List.mem_cons.mp hj with rfl | hmem
                      · rfl
                      · exact ih (i + 1) qs rest hrest j hmem
                  | false =>
                      rw [if_neg (by simp)] at h
                      simp only [Except.ok.injEq] at h
                      subst h
                      exact ih (i + 1) qs rest hrest j hj

/-- Helper: every new job returned by `solve_row` targets the
perpendicular axis. -/
theorem solve_row_jobs_axis
    (sl : List ℕ → List MCell → Except Unit (List MCell))
    (b : PBoard) (idx : ℕ) (ic : Bool) (js : List (Bool × ℕ)) (b' : PBoard)
    (h : solve_row sl b idx ic = Except.ok (js, b')) :
    ∀ j ∈ js, j.1 = !ic := by
  unfold solve_row at h
  dsimp only at h
  cases hs : sl (if ic then b.columns_descriptions.getD idx []
      else b.rows_descriptions.getD idx [])
      (if ic then b.get_column idx else b.get_row idx) with
  | error e => rw [hs] at h; cases h
  | ok updated =>
      rw [hs] at h
      dsimp only at h
      by_cases heq : (if ic then b.get_column idx else b.get_row idx) = updated
      · rw [if_pos heq] at h
        cases h
        intro j hj
        cases hj
      · rw [if_neg heq] at h
        cases hc : collect_jobs ic 0
            (if ic then b.get_column idx else b.get_row idx) updated with
        | error e => rw [hc] at h; cases h
        | ok jobs =>
            rw [hc] at h
            dsimp only at h
            simp only [Except.ok.injEq, Prod.mk.injEq] at h
            obtain ⟨h1, h2⟩ := h
            subst h1
            exact collect_jobs_axis ic 0 _ updated _ hc

/-- Helper: over any successful run of the driver loop, every logged pop
event enqueued its new jobs with priority `popped - 1` (or the
`attempts_to_try` heuristic on blotted boards) and on the perpendicular
axis. -/
theorem driverLoop_event_invariant
    (sl : List ℕ → List MCell → Except Unit (List MCell))
    (attempts : Job → ℤ) (hasBlots : Bool) :
    ∀ (fuel : ℕ) (q : JobQueue) (b : PBoard) (cs ls : ℕ)
      (evs : List PopEvent) (out : ℕ × ℕ × PBoard × List PopEvent),
    driverLoop sl attempts hasBlots fuel q b cs ls evs = Except.ok out →
    (∀ ev ∈ evs, ∀ jp ∈ ev.added,
        jp.2 = (if hasBlots then attempts jp.1 else ev.priority - 1)
        ∧ jp.1.1 = !ev.job.1) →
    ∀ ev ∈ out.2.2.2, ∀ jp ∈ ev.added,
        jp.2 = (if hasBlots then attempts jp.1 else ev.priority - 1)
        ∧ jp.1.1 = !ev.job.1 := by
  intro fuel
  induction fuel with
  | zero =>
      intro q b cs ls evs out h hacc
      unfold driverLoop at h
      cases hq : popMin q with
      | none =>
          rw [hq] at h
          cases h
          intro ev hev
          exact hacc ev (List.mem_reverse.mp hev)
      | some p => rw [hq] at h; cases h
  | succ fuel ih =>
      intro q b cs ls evs out h hacc
      unfold driverLoop at h
      cases hq : popMin q with
      | none =>
          rw [hq] at h
          cases h
          intro ev hev
          exact hacc ev (List.mem_reverse.mp hev)
      | some p =>
          obtain ⟨⟨job, priority⟩, q'⟩ := p
          rw [hq] at h
          dsimp only at h
          cases hs : solve_row sl b job.2 job.1 with
          | error e => rw [hs] at h; cases h
          | ok res =>
              obtain ⟨newJobs, b'⟩ := res
              rw [hs] at h
              dsimp only at h
              refine ih _ _ _ _ _ _ h ?_
              intro ev hev
              rcases List.mem_cons.mp hev with rfl | hmem
              · intro jp hjp
                simp only [List.mem_map] at hjp
                obtain ⟨j, hj, rfl⟩ := hjp
                exact ⟨rfl, solve_row_jobs_axis sl b job.2 job.1
                  newJobs b' hs j hj⟩
              · exact hacc ev hmem

/-- C2: jobs are `(is_column, index)` with rows tagged 0 and columns 1:
whatever `popMin` returns has a priority no larger than any queued entry,
and a popped column job means every queued row job had a strictly larger
priority (rows win ties); moreover, in any successful driver run, every
enqueued reaction job carries priority `popped priority - 1` (or
`attempts_to_try` on blotted boards) and targets the perpendicular
axis. -/
theorem propagation_priority_semantics
    (q : JobQueue) (m : Job × ℤ) (r : JobQueue) (e : Job × ℤ)
    (hpop : popMin q = some (m, r)) (he : e ∈ q)
    (sl : List ℕ → List MCell → Except Unit (List MCell))
    (attempts : Job → ℤ) (hasBlots : Bool) (fuel : ℕ)
    (qi : JobQueue) (b : PBoard) (out : ℕ × ℕ × PBoard × List PopEvent)
    (hrun : driverLoop sl attempts hasBlots fuel qi b 0 0 [] = Except.ok out)
    (ev : PopEvent) (hev : ev ∈ out.2.2.2)
    (jp : Job × ℤ) (hjp : jp ∈ ev.added) :
    (m.2 ≤ e.2)
    ∧ (m.1.1 = true → e.1.1 = false → m.2 < e.2)
    ∧ jp.2 = (if hasBlots then attempts jp.1 else ev.priority - 1)
    ∧ jp.1.1 = !ev.job.1 := by
  have hmin := popMin_min q m r hpop e he
  have hinv := driverLoop_event_invariant sl attempts hasBlots fuel qi b
    0 0 [] out hrun (by intro ev h; cases h) ev hev jp hjp
  unfold keyLe jobKey at hmin
  refine ⟨?_, ?_, hinv.1, hinv.2⟩
  · rcases hmin with h | ⟨h, _⟩
    · omega
    · omega
  · intro hm hel
    rw [hm, hel] at hmin
    simp at hmin
    omega

/-- Witness for C2: a two-entry queue with a priority tie (the row wins
the pop), and the concrete 1×2-board run in which solving row 0 at
priority 0 enqueues both perpendicular columns at priority `-1`. -/
theorem propagation_priority_semantics_witness :
    (((false, 3), (0 : ℤ)).2 ≤ (((true, 0), (0 : ℤ))).2
    ∧ ((((false, 3), (0 : ℤ))).1.1 = true →
        (((true, 0), (0 : ℤ))).1.1 = false →
        (((false, 3), (0 : ℤ))).2 < (((true, 0), (0 : ℤ))).2)
    ∧ ((((true, 0), (-1 : ℤ))).2 =
        if false = true then (fun _ => (0 : ℤ)) (((true, 0), (-1 : ℤ))).1
        else ({ job := (false, 0), priority := 0,
                added := [((true, 0), -1), ((true, 1), -1)] }
                : PopEvent).priority - 1)
    ∧ (((true, 0), (-1 : ℤ))).1.1 =
        !({ job := (false, 0), priority := 0,
            added := [((true, 0), -1), ((true, 1), -1)] }
            : PopEvent).job.1) :=
  propagation_priority_semantics
    [((true, 0), 0), ((false, 3), 0)]
    ((false, 3), 0) [((true, 0), 0)] ((true, 0), 0)
    rfl (by simp)
    solve_line (fun _ => 0) false 10
    [((false, 0), 0), ((true, 0), 0), ((true, 1), 0)] pb2
    (2, 3,
      { rows_descriptions := [[2]]
        columns_descriptions := [[1], [1]]
        cells := [[MCell.box, MCell.box]] },
      [{ job := (false, 0), priority := 0,
         added := [((true, 0), -1), ((true, 1), -1)] },
       { job := (true, 0), priority := -1, added := [] },
       { job := (true, 1), priority := -1, added := [] }])
    rfl
    { job := (false, 0), priority := 0,
      added := [((true, 0), -1), ((true, 1), -1)] }
    (by simp)
    ((true, 0), -1) (by simp)

end Pynogram
